import Mathlib

/-!
Shallow embedding of the `herfish` core (package `herfish`, file `herfish.go`):
the sentinel-directory resolver `findSentinelDirs`, the metadata aggregation
loop of `run`, the git metadata adapters `countCommits` / `getRepoStatus` /
`isRepoClean`, the revision-count filter `applyFilters`, and the text output
stage `outputResults` driven by `outputTemplate`.

Paths are modelled as cleaned slash-separated component lists, either absolute
(`GoPath.abs cs` renders as `/c1/.../cn`, with `GoPath.abs []` being `/`) or
relative (`GoPath.rel cs`, with `GoPath.rel []` being `.`).  The filesystem is
a finite table from absolute component lists to an is-directory flag; `os.Stat`
of a path resolves a relative path against the process working directory, as
the OS does.  The go-git library is modelled as a per-directory oracle
(`GitRepoState`) recording which of its calls succeed and what they return.
The inner upward-walk loop of `findSentinelDirs` is given explicit fuel, since
the Go loop (`for currentDir != "/" ...; currentDir = filepath.Dir(currentDir)`)
does not structurally terminate: `filepath.Dir "." = "."`.  A `none` outcome
means the loop has not finished within the given fuel, for any fuel.
-/

/-- A cleaned filesystem path: absolute (components under `/`) or relative. -/
inductive GoPath where
  | abs : List String → GoPath
  | rel : List String → GoPath
deriving DecidableEq, Repr

namespace GoPath

/-- `filepath.Dir` on cleaned paths: drop the last component.
`Dir "/" = "/"` and `Dir "." = "."` (both are represented by `[]`). -/
def dir : GoPath → GoPath
  | .abs cs => .abs cs.dropLast
  | .rel cs => .rel cs.dropLast

/-- `filepath.Join p name` for a single cleaned component `name`. -/
def join : GoPath → String → GoPath
  | .abs cs, s => .abs (cs ++ [s])
  | .rel cs, s => .rel (cs ++ [s])

/-- Resolve a path to absolute components against the working directory `cwd`,
as `filepath.Abs` and the OS path resolution do. -/
def absOf (cwd : List String) : GoPath → List String
  | .abs cs => cs
  | .rel cs => cwd ++ cs

/-- Render the path as the Go string it stands for. -/
def render : GoPath → String
  | .abs cs => "/" ++ String.intercalate "/" cs
  | .rel [] => "."
  | .rel cs => String.intercalate "/" cs

end GoPath

/-- A static snapshot of the filesystem: absolute paths that exist, each with
its is-directory flag. -/
structure FS where
  entries : List (List String × Bool)
deriving Repr

/-- `os.Stat`: `some isDir` when the path (resolved against `cwd`) exists,
`none` for a stat error (the entry is absent). -/
def FS.stat (fs : FS) (cwd : List String) (p : GoPath) : Option Bool :=
  (fs.entries.find? (fun e => e.1 == GoPath.absOf cwd p)).map (fun e => e.2)

/-- The resolver's accumulator: the `uniqueDirs` seen-set and the `result`
slice, in discovery order (`findSentinelDirs`, herfish.go). -/
structure ResolveState where
  uniqueDirs : List GoPath
  result : List GoPath
deriving DecidableEq, Repr

/-- The inner loop of `findSentinelDirs`:
`for currentDir != "/" && !uniqueDirs[currentDir] { probe; currentDir = Dir }`.
Returns the updated state and the list of directories whose sentinel entry was
statted, in probe order; `none` when the fuel runs out before the loop exits. -/
def walkLoop (fs : FS) (cwd : List String) (sentinel : String) :
    Nat → ResolveState → GoPath → Option (ResolveState × List GoPath)
  | 0, _, _ => none
  | fuel + 1, st, d =>
    if d = GoPath.abs [] ∨ d ∈ st.uniqueDirs then
      some (st, [])
    else if (FS.stat fs cwd (GoPath.join d sentinel)).isSome then
      some (⟨d :: st.uniqueDirs, st.result ++ [d]⟩, [d])
    else
      match walkLoop fs cwd sentinel fuel st (GoPath.dir d) with
      | none => none
      | some (st2, ps) => some (st2, d :: ps)

/-- The per-path loop of `findSentinelDirs` (herfish.go lines 404-438): stat the
input path (a failure aborts with an error), pick the starting directory
(`filepath.Abs path`, overridden with `filepath.Dir path` for a directory at a
non-zero index), then run the upward walk.  Also returns the sentinel probe
trace. -/
def findSentinelDirsAux (fs : FS) (cwd : List String) (sentinel : String) (fuel : Nat) :
    Nat → ResolveState → List GoPath → Option (Except String (List GoPath) × List GoPath)
  | _, st, [] => some (Except.ok st.result, [])
  | iter, st, path :: rest =>
    match FS.stat fs cwd path with
    | none => some (Except.error "failed to stat path", [])
    | some isDir =>
      let currentDir :=
        if isDir = true ∧ iter ≠ 0 then GoPath.dir path
        else GoPath.abs (GoPath.absOf cwd path)
      match walkLoop fs cwd sentinel fuel st currentDir with
      | none => none
      | some (st2, ps) =>
        match findSentinelDirsAux fs cwd sentinel fuel (iter + 1) st2 rest with
        | none => none
        | some (r, ps2) => some (r, ps ++ ps2)

/-- `findSentinelDirs paths sentinel` from herfish.go, starting from an empty
seen-set and result. -/
def findSentinelDirs (fs : FS) (cwd : List String) (fuel : Nat)
    (paths : List GoPath) (sentinel : String) :
    Option (Except String (List GoPath) × List GoPath) :=
  findSentinelDirsAux fs cwd sentinel fuel 0 ⟨[], []⟩ paths

/-- go-git `StatusCode` (staging or worktree state of one file). -/
inductive StatusCode where
  | unmodified
  | untracked
  | modified
  | added
  | deleted
  | renamed
  | copied
  | updatedButUnmerged
deriving DecidableEq, Repr

/-- go-git `FileStatus`: the staging and worktree state of one file. -/
structure FileStatus where
  staging : StatusCode
  worktree : StatusCode
deriving DecidableEq, Repr

/-- Per-directory oracle for the go-git calls the program makes: whether
`PlainOpen`, `Log`, the commit iteration, `Worktree` and `Status` succeed,
the commit count the iteration produces, and the status map `Status` returns
(an association list with the keys of a Go map, hence unique). -/
structure GitRepoState where
  openOk : Bool
  logOk : Bool
  iterOk : Bool
  commits : Int
  worktreeOk : Bool
  statusOk : Bool
  status : List (String × FileStatus)

/-- The error outcomes of `countCommits`: the sentinel `ErrNoGitLog`, or any
other (wrapped) error. -/
inductive CountErr where
  | noGitLog
  | other : String → CountErr
deriving DecidableEq, Repr

/-- `countCommits repoPath` (herfish.go lines 440-465): open the repository,
query the log (failure is the sentinel `ErrNoGitLog`), iterate the commits. -/
def countCommits (g : GoPath → GitRepoState) (repoPath : GoPath) : Except CountErr Int :=
  let r := g repoPath
  if r.openOk = false then Except.error (CountErr.other "failed to open repo")
  else if r.logOk = false then Except.error CountErr.noGitLog
  else if r.iterOk = false then Except.error (CountErr.other "failed to iterate commits")
  else Except.ok r.commits

/-- `isRepoClean` (herfish.go lines 342-369): copy the status map, delete every
entry whose worktree state is `Untracked`, and report clean when the copy is
empty. -/
def isRepoClean (status : List (String × FileStatus)) : Bool :=
  let statusCopy := status.foldl
    (fun acc e =>
      if e.2.worktree = StatusCode.untracked then acc.filter (fun x => x.1 != e.1)
      else acc)
    status
  statusCopy.length == 0

/-- `getRepoStatus dir` (herfish.go lines 324-340): open the repository, get
the worktree and its status, and report "clean" or "dirty" via `isRepoClean`. -/
def getRepoStatus (g : GoPath → GitRepoState) (d : GoPath) : Except String String :=
  let r := g d
  if r.openOk = false then Except.error "failed to open repo"
  else if r.worktreeOk = false then Except.error "failed to check repo cleanliness"
  else if r.statusOk = false then Except.error "failed to check repo cleanliness"
  else if isRepoClean r.status then Except.ok "clean"
  else Except.ok "dirty"

/-- The `templateData` record rendered by `outputTemplate`. -/
structure templateData where
  Dir : GoPath
  CountCommits : Bool
  CommitCount : Int
  RepoStatus : String
deriving DecidableEq, Repr

/-- The metadata aggregation loop of `run` (herfish.go lines 289-315): for each
resolved directory build a record with `CountCommits = (commitCountMax != -1)`,
`CommitCount = 0` and `RepoStatus = "unknown"`; when metadata is requested,
count the commits — on `ErrNoGitLog` only log (the record is still appended),
on any other error abort, and on success fill in the count and the repository
status (whose failure also aborts). -/
def aggregateDirs (g : GoPath → GitRepoState) (commitCountMax : Int) :
    List GoPath → Except String (List templateData)
  | [] => Except.ok []
  | d :: rest =>
    let data : templateData :=
      ⟨d, commitCountMax != -1, 0, "unknown"⟩
    if commitCountMax != -1 then
      match countCommits g d with
      | Except.error CountErr.noGitLog =>
        match aggregateDirs g commitCountMax rest with
        | Except.error e => Except.error e
        | Except.ok l => Except.ok (data :: l)
      | Except.error (CountErr.other e) =>
        Except.error ("failed to count commits: " ++ e)
      | Except.ok n =>
        match getRepoStatus g d with
        | Except.error e => Except.error ("failed to get repo status: " ++ e)
        | Except.ok st =>
          match aggregateDirs g commitCountMax rest with
          | Except.error e => Except.error e
          | Except.ok l =>
            Except.ok ({ data with CommitCount := n, RepoStatus := st } :: l)
    else
      match aggregateDirs g commitCountMax rest with
      | Except.error e => Except.error e
      | Except.ok l => Except.ok (data :: l)

/-- `applyFilters dataCollection commitCountMax` (herfish.go lines 371-383):
keep every record when the cap is `-1`, else keep records with
`CommitCount <= commitCountMax`. -/
def applyFilters : List templateData → Int → List templateData
  | [], _ => []
  | data :: rest, m =>
    if m = -1 then data :: applyFilters rest m
    else if data.CommitCount ≤ m then data :: applyFilters rest m
    else applyFilters rest m

/-- Go `fmt.Sprintf "%4d" n`: the decimal rendering right-justified in a field
of width four, padded with spaces. -/
def pad4Int (n : Int) : String :=
  let s := toString n
  if s.length < 4 then String.mk (List.replicate (4 - s.length) ' ') ++ s else s

/-- One line produced by executing `outputTemplate` on a record: the
`{{printf "%4d %s " .CommitCount .RepoStatus}}` prefix when `.CountCommits`
holds, then the directory and a newline. -/
def renderLine (data : templateData) : String :=
  (if data.CountCommits then pad4Int data.CommitCount ++ " " ++ data.RepoStatus ++ " "
   else "") ++ data.Dir.render ++ "\n"

/-- `outputResults` (herfish.go lines 385-402): execute the (constant, always
parseable) template on every record into one buffer and print it. -/
def outputResults (filteredData : List templateData) : String :=
  String.join (filteredData.map renderLine)

/-- Lexicographic order on cleaned component lists, component by component with
Go string comparison, shorter list first on a tie; `sort.Strings` on the
rendered paths agrees with it on ordinary path characters. -/
def listLeString : List String → List String → Bool
  | [], _ => true
  | _ :: _, [] => false
  | a :: as, b :: bs => if a = b then listLeString as bs else decide (a ≤ b)

/-- The order `sort.Strings` applies to the input path strings, on `GoPath`:
`.` sorts before `/` (0x2E before 0x2F), so relative paths come first. -/
def pathLe (p q : GoPath) : Bool :=
  match p, q with
  | .rel as, .rel bs => listLeString as bs
  | .rel _, .abs _ => true
  | .abs _, .rel _ => false
  | .abs as, .abs bs => listLeString as bs

/-- `pathLe` as a relation, for `List.insertionSort`. -/
def pathRel (p q : GoPath) : Prop := pathLe p q = true

instance : DecidableRel pathRel := fun p q =>
  inferInstanceAs (Decidable (pathLe p q = true))

/-- `sort.Strings paths` in `run`. -/
def sortPaths (paths : List GoPath) : List GoPath :=
  List.insertionSort pathRel paths

/-- `run` (herfish.go lines 261-322) after stdin has been read into `stdin`:
sort the paths, resolve the sentinel directories, aggregate metadata, filter,
and render; `none` when the resolver loop diverges. -/
def run (fs : FS) (cwd : List String) (g : GoPath → GitRepoState) (fuel : Nat)
    (stdin : List GoPath) (sentinel : String) (commitCountMax : Int) :
    Option (Except String String) :=
  let paths := sortPaths stdin
  match findSentinelDirs fs cwd fuel paths sentinel with
  | none => none
  | some (Except.error e, _) =>
    some (Except.error ("failed to find sentinel dirs: " ++ e))
  | some (Except.ok sentinelDirs, _) =>
    match aggregateDirs g commitCountMax sentinelDirs with
    | Except.error e => some (Except.error e)
    | Except.ok dataCollection =>
      some (Except.ok (outputResults (applyFilters dataCollection commitCountMax)))

/-! Helper lemmas about the resolver loop. -/

lemma walkLoop_zero (fs : FS) (cwd : List String) (s : String) (st : ResolveState)
    (d : GoPath) : walkLoop fs cwd s 0 st d = none := rfl

lemma walkLoop_stop (fs : FS) (cwd : List String) (s : String) (n : Nat)
    (st : ResolveState) (d : GoPath) (h : d = GoPath.abs [] ∨ d ∈ st.uniqueDirs) :
    walkLoop fs cwd s (n + 1) st d = some (st, []) := by
  simp only [walkLoop, if_pos h]

lemma walkLoop_found (fs : FS) (cwd : List String) (s : String) (n : Nat)
    (st : ResolveState) (d : GoPath)
    (h1 : ¬(d = GoPath.abs [] ∨ d ∈ st.uniqueDirs))
    (h2 : (FS.stat fs cwd (GoPath.join d s)).isSome = true) :
    walkLoop fs cwd s (n + 1) st d =
      some (⟨d :: st.uniqueDirs, st.result ++ [d]⟩, [d]) := by
  simp only [walkLoop, if_neg h1, if_pos h2]

lemma walkLoop_step (fs : FS) (cwd : List String) (s : String) (n : Nat)
    (st : ResolveState) (d : GoPath)
    (h1 : ¬(d = GoPath.abs [] ∨ d ∈ st.uniqueDirs))
    (h2 : FS.stat fs cwd (GoPath.join d s) = none) :
    walkLoop fs cwd s (n + 1) st d =
      match walkLoop fs cwd s n st (GoPath.dir d) with
      | none => none
      | some (st2, ps) => some (st2, d :: ps) := by
  simp only [walkLoop, if_neg h1, h2, Option.isSome_none, Bool.false_eq_true,
    if_false]

lemma findSentinelDirsAux_nil (fs : FS) (cwd : List String) (s : String)
    (fuel iter : Nat) (st : ResolveState) :
    findSentinelDirsAux fs cwd s fuel iter st [] = some (Except.ok st.result, []) :=
  rfl

lemma findSentinelDirsAux_statErr (fs : FS) (cwd : List String) (s : String)
    (fuel iter : Nat) (st : ResolveState) (p : GoPath) (rest : List GoPath)
    (h : FS.stat fs cwd p = none) :
    findSentinelDirsAux fs cwd s fuel iter st (p :: rest) =
      some (Except.error "failed to stat path", []) := by
  simp only [findSentinelDirsAux, h]

lemma findSentinelDirsAux_cons (fs : FS) (cwd : List String) (s : String)
    (fuel iter : Nat) (st : ResolveState) (p : GoPath) (rest : List GoPath)
    (isDir : Bool) (h : FS.stat fs cwd p = some isDir) :
    findSentinelDirsAux fs cwd s fuel iter st (p :: rest) =
      match walkLoop fs cwd s fuel st
          (if isDir = true ∧ iter ≠ 0 then GoPath.dir p
           else GoPath.abs (GoPath.absOf cwd p)) with
      | none => none
      | some (st2, ps) =>
        match findSentinelDirsAux fs cwd s fuel (iter + 1) st2 rest with
        | none => none
        | some (r, ps2) => some (r, ps ++ ps2) := by
  simp only [findSentinelDirsAux, h]

/-! Concrete filesystems and git oracles used by witnesses and
counterexamples. -/

/-- Two source files under one marked root `/r1`; `/.git` also exists. -/
def fsA : FS := ⟨[(["r1", "a", "x.go"], false), (["r1", "b", "y.go"], false),
  (["r1", ".git"], true), ([".git"], true)]⟩

/-- A filesystem with a file `/a` and a directory `/home/foo`, no marker
anywhere on the chain walked from `.` when the working directory is `/home`. -/
def fs3 : FS := ⟨[(["a"], false), (["home", "foo"], true)]⟩

/-- A single marked root `/a` holding the file `/a/f.go`. -/
def fs5 : FS := ⟨[(["a", "f.go"], false), (["a", ".git"], true)]⟩

/-- A marked root `/a` holding `/a/x.go`; the path `/missing` does not exist. -/
def fs6 : FS := ⟨[(["a", "x.go"], false), (["a", ".git"], true)]⟩

/-- The root `/` carries the sentinel `/.git`; `/a/x.go` is a plain file. -/
def fs10 : FS := ⟨[([".git"], true), (["a", "x.go"], false)]⟩

/-- Every directory opens as a repository whose `Log` call fails
(`ErrNoGitLog`). -/
def gNoLog : GoPath → GitRepoState := fun _ =>
  { openOk := true, logOk := false, iterOk := true, commits := 0,
    worktreeOk := true, statusOk := true, status := [] }

/-- No directory opens as a repository (`PlainOpen` fails). -/
def gNoRepo : GoPath → GitRepoState := fun _ =>
  { openOk := false, logOk := true, iterOk := true, commits := 0,
    worktreeOk := true, statusOk := true, status := [] }

/-- Every directory is a clean repository with three commits. -/
def gClean3 : GoPath → GitRepoState := fun _ =>
  { openOk := true, logOk := true, iterOk := true, commits := 3,
    worktreeOk := true, statusOk := true, status := [] }

lemma applyFilters_neg_one (l : List templateData) : applyFilters l (-1) = l := by
  induction l with
  | nil => rfl
  | cons a rest ih => simp [applyFilters, ih]

lemma applyFilters_le (l : List templateData) (C : Int) (hC : ¬(C = -1)) :
    ∀ d ∈ applyFilters l C, d.CommitCount ≤ C := by
  induction l with
  | nil => simp [applyFilters]
  | cons a rest ih =>
    by_cases ha : a.CommitCount ≤ C
    · simp only [applyFilters, if_neg hC, if_pos ha, List.mem_cons]
      rintro d (rfl | hd)
      · exact ha
      · exact ih d hd
    · simp only [applyFilters, if_neg hC, if_neg ha]
      exact ih

/-- C4: for a cap C >= 0 every record surviving applyFilters has
CommitCount <= C, a record whose CommitCount exceeds C never survives, and the
sentinel cap -1 keeps every record unchanged. -/
theorem c4_revision_filter (l : List templateData) (C : Int) (h : 0 ≤ C) :
    (∀ d ∈ applyFilters l C, d.CommitCount ≤ C) ∧
    (∀ d ∈ l, C < d.CommitCount → d ∉ applyFilters l C) ∧
    applyFilters l (-1) = l := by
  have hC : ¬(C = -1) := by omega
  refine ⟨applyFilters_le l C hC, ?_, applyFilters_neg_one l⟩
  intro d _ hgt hd
  exact absurd (applyFilters_le l C hC d hd) (not_le.mpr hgt)

/-- Sample records for the revision-filter witness. -/
def sampleRecords : List templateData :=
  [⟨GoPath.abs ["r1"], true, 3, "clean"⟩, ⟨GoPath.abs ["r2"], true, 10, "dirty"⟩]

theorem c4_revision_filter_witness :
    (0 : Int) ≤ 5 ∧
    ((∀ d ∈ applyFilters sampleRecords 5, d.CommitCount ≤ 5) ∧
     (∀ d ∈ sampleRecords, 5 < d.CommitCount → d ∉ applyFilters sampleRecords 5) ∧
     applyFilters sampleRecords (-1) = sampleRecords) :=
  ⟨by decide, c4_revision_filter sampleRecords 5 (by decide)⟩

/-- C5 counterexample: for the non-directory input `/a/f.go` the upward search
starts (first sentinel probe happens) at the stat-resolved path itself, not at
its containing directory as the claim states. -/
theorem c5_start_dir_cex :
    FS.stat fs5 [] (GoPath.abs ["a", "f.go"]) = some false ∧
    findSentinelDirs fs5 [] 10 [GoPath.abs ["a", "f.go"]] ".git" =
      some (Except.ok [GoPath.abs ["a"]],
        [GoPath.abs ["a", "f.go"], GoPath.abs ["a"]]) ∧
    GoPath.abs ["a", "f.go"] ≠ GoPath.dir (GoPath.abs ["a", "f.go"]) :=
  ⟨rfl, rfl, by decide⟩

/-- C5 amended: the search for an input path starts at `Dir(path)` of the raw
path exactly when the path stats as a directory and is not the first item;
in every other case (first item, or a non-directory at any position) it starts
at the absolute form of the path itself — for a non-directory that is the file
path, whose own sentinel probe necessarily fails before the walk moves to the
containing directory. -/
theorem c5_start_dir_amended (fs : FS) (cwd : List String) (s : String)
    (fuel iter : Nat) (st : ResolveState) (p : GoPath) (rest : List GoPath)
    (isDir : Bool) (h : FS.stat fs cwd p = some isDir) :
    findSentinelDirsAux fs cwd s fuel iter st (p :: rest) =
      match walkLoop fs cwd s fuel st
          (if isDir = true ∧ iter ≠ 0 then GoPath.dir p
           else GoPath.abs (GoPath.absOf cwd p)) with
      | none => none
      | some (st2, ps) =>
        match findSentinelDirsAux fs cwd s fuel (iter + 1) st2 rest with
        | none => none
        | some (r, ps2) => some (r, ps ++ ps2) :=
  findSentinelDirsAux_cons fs cwd s fuel iter st p rest isDir h

theorem c5_start_dir_amended_witness :
    FS.stat fs5 [] (GoPath.abs ["a", "f.go"]) = some false ∧
    findSentinelDirsAux fs5 [] ".git" 10 0 ⟨[], []⟩ [GoPath.abs ["a", "f.go"]] =
      match walkLoop fs5 [] ".git" 10 ⟨[], []⟩
          (if false = true ∧ (0 : Nat) ≠ 0 then GoPath.dir (GoPath.abs ["a", "f.go"])
           else GoPath.abs (GoPath.absOf [] (GoPath.abs ["a", "f.go"]))) with
      | none => none
      | some (st2, ps) =>
        match findSentinelDirsAux fs5 [] ".git" 10 1 st2 [] with
        | none => none
        | some (r, ps2) => some (r, ps ++ ps2) :=
  ⟨by decide,
    c5_start_dir_amended fs5 [] ".git" 10 0 ⟨[], []⟩ (GoPath.abs ["a", "f.go"]) []
      false (by decide)⟩

/-- C6 counterexample: the second input path `/missing` does not exist; the
whole resolution aborts with an error and the already-resolved directory `/a`
is discarded, where the claim says a nonexistent path is a per-item skip. -/
theorem c6_missing_path_cex :
    FS.stat fs6 [] (GoPath.abs ["missing"]) = none ∧
    findSentinelDirs fs6 [] 10 [GoPath.abs ["a", "x.go"], GoPath.abs ["missing"]]
      ".git" =
      some (Except.error "failed to stat path",
        [GoPath.abs ["a", "x.go"], GoPath.abs ["a"]]) :=
  ⟨rfl, rfl⟩

/-- C6 amended: an input path whose `os.Stat` fails is fatal: the resolver
returns an error at once, the remaining items are not processed, and no
resolved directory is returned for the batch. -/
theorem c6_missing_path_amended (fs : FS) (cwd : List String) (s : String)
    (fuel iter : Nat) (st : ResolveState) (p : GoPath) (rest : List GoPath)
    (h : FS.stat fs cwd p = none) :
    findSentinelDirsAux fs cwd s fuel iter st (p :: rest) =
      some (Except.error "failed to stat path", []) :=
  findSentinelDirsAux_statErr fs cwd s fuel iter st p rest h

theorem c6_missing_path_amended_witness :
    FS.stat fs6 [] (GoPath.abs ["missing"]) = none ∧
    findSentinelDirsAux fs6 [] ".git" 10 1 ⟨[GoPath.abs ["a"]], [GoPath.abs ["a"]]⟩
      [GoPath.abs ["missing"], GoPath.abs ["later"]] =
      some (Except.error "failed to stat path", []) :=
  ⟨by decide,
    c6_missing_path_amended fs6 [] ".git" 10 1 ⟨[GoPath.abs ["a"]], [GoPath.abs ["a"]]⟩
      (GoPath.abs ["missing"]) [GoPath.abs ["later"]] (by decide)⟩

/-- C1 counterexample: with metadata requested, a directory whose `Log` fails
(`ErrNoGitLog`) still yields a record (count 0, status "unknown"), and a
directory whose `PlainOpen` fails aborts the whole aggregation — both against
the claim. -/
theorem c1_skip_on_invalid_cex :
    aggregateDirs gNoLog 5 [GoPath.abs ["r1"]] =
      Except.ok [⟨GoPath.abs ["r1"], true, 0, "unknown"⟩] ∧
    aggregateDirs gNoRepo 5 [GoPath.abs ["r1"], GoPath.abs ["r2"]] =
      Except.error "failed to count commits: failed to open repo" :=
  ⟨rfl, rfl⟩

/-- C1 amended: when metadata is requested, a directory whose provider opens
but has no git log yields a Result Record with CommitCount 0 and RepoStatus
"unknown" and the remaining directories are still processed; a directory for
which opening the working copy fails aborts the whole aggregation with an
error. -/
theorem c1_skip_on_invalid_amended (g : GoPath → GitRepoState) (max : Int)
    (d : GoPath) (rest : List GoPath) (hmax : max ≠ -1) :
    ((g d).openOk = true → (g d).logOk = false →
      ∀ l, aggregateDirs g max rest = Except.ok l →
        aggregateDirs g max (d :: rest) =
          Except.ok (⟨d, true, 0, "unknown"⟩ :: l)) ∧
    ((g d).openOk = false →
      aggregateDirs g max (d :: rest) =
        Except.error "failed to count commits: failed to open repo") := by
  have hb : (max != -1) = true := bne_iff_ne.mpr hmax
  constructor
  · intro ho hl l hrest
    have hc : countCommits g d = Except.error CountErr.noGitLog := by
      simp [countCommits, ho, hl]
    simp only [aggregateDirs]
    rw [hb, if_pos rfl, hc, hrest]
  · intro ho
    have hc : countCommits g d =
        Except.error (CountErr.other "failed to open repo") := by
      simp [countCommits, ho]
    simp only [aggregateDirs]
    rw [hb, if_pos rfl, hc]
    rfl

theorem c1_skip_on_invalid_witness :
    (5 : Int) ≠ -1 ∧
    (((gNoLog (GoPath.abs ["r1"])).openOk = true →
        (gNoLog (GoPath.abs ["r1"])).logOk = false →
        ∀ l, aggregateDirs gNoLog 5 [] = Except.ok l →
          aggregateDirs gNoLog 5 [GoPath.abs ["r1"]] =
            Except.ok (⟨GoPath.abs ["r1"], true, 0, "unknown"⟩ :: l)) ∧
     ((gNoLog (GoPath.abs ["r1"])).openOk = false →
        aggregateDirs gNoLog 5 [GoPath.abs ["r1"]] =
          Except.error "failed to count commits: failed to open repo")) :=
  ⟨by decide, c1_skip_on_invalid_amended gNoLog 5 (GoPath.abs ["r1"]) [] (by decide)⟩

lemma aggregateDirs_countFlag (g : GoPath → GitRepoState) (max : Int) :
    ∀ dirs l, aggregateDirs g max dirs = Except.ok l →
      ∀ d ∈ l, d.CountCommits = (max != -1) := by
  intro dirs
  induction dirs with
  | nil =>
    intro l h d hd
    simp only [aggregateDirs] at h
    injection h with h2
    subst h2
    simp at hd
  | cons p rest ih =>
    intro l h d hd
    simp only [aggregateDirs] at h
    cases hmb : (max != -1) with
    | false =>
      rw [hmb, if_neg Bool.false_ne_true] at h
      cases haux : aggregateDirs g max rest with
      | error e => rw [haux] at h; exact absurd h (by simp)
      | ok l2 =>
        rw [haux] at h
        injection h with h2
        subst h2
        rcases List.mem_cons.mp hd with rfl | hd2
        · rfl
        · exact (ih l2 haux d hd2).trans hmb
    | true =>
      rw [hmb, if_pos rfl] at h
      cases hc : countCommits g p with
      | error ce =>
        rw [hc] at h
        cases ce with
        | noGitLog =>
          cases haux : aggregateDirs g max rest with
          | error e => rw [haux] at h; exact absurd h (by simp)
          | ok l2 =>
            rw [haux] at h
            injection h with h2
            subst h2
            rcases List.mem_cons.mp hd with rfl | hd2
            · rfl
            · exact (ih l2 haux d hd2).trans hmb
        | other e => exact absurd h (by simp)
      | ok n =>
        rw [hc] at h
        cases hs : getRepoStatus g p with
        | error e => rw [hs] at h; exact absurd h (by simp)
        | ok stt =>
          rw [hs] at h
          cases haux : aggregateDirs g max rest with
          | error e => rw [haux] at h; exact absurd h (by simp)
          | ok l2 =>
            rw [haux] at h
            injection h with h2
            subst h2
            rcases List.mem_cons.mp hd with rfl | hd2
            · rfl
            · exact (ih l2 haux d hd2).trans hmb

lemma applyFilters_sub (l : List templateData) (m : Int) :
    ∀ d ∈ applyFilters l m, d ∈ l := by
  induction l with
  | nil => simp [applyFilters]
  | cons a rest ih =>
    intro d hd
    simp only [applyFilters] at hd
    by_cases hm : m = -1
    · rw [if_pos hm] at hd
      rcases List.mem_cons.mp hd with rfl | hd2
      · exact List.mem_cons_self _ _
      · exact List.mem_cons_of_mem _ (ih d hd2)
    · rw [if_neg hm] at hd
      by_cases ha : a.CommitCount ≤ m
      · rw [if_pos ha] at hd
        rcases List.mem_cons.mp hd with rfl | hd2
        · exact List.mem_cons_self _ _
        · exact List.mem_cons_of_mem _ (ih d hd2)
      · rw [if_neg ha] at hd
        exact List.mem_cons_of_mem _ (ih d hd)

lemma string_empty_append (s : String) : "" ++ s = s := by
  cases s
  rfl

/-- C7 counterexample: a record whose metadata was requested but unavailable
(no git log) is printed with the prefix `   0 unknown `, not as the bare
directory path the claim requires. -/
theorem c7_output_format_cex :
    aggregateDirs gNoLog 5 [GoPath.abs ["r1"]] =
      Except.ok [⟨GoPath.abs ["r1"], true, 0, "unknown"⟩] ∧
    outputResults (applyFilters [⟨GoPath.abs ["r1"], true, 0, "unknown"⟩] 5) =
      "   0 unknown /r1\n" ∧
    ("   0 unknown /r1\n" : String) ≠ "/r1\n" :=
  ⟨rfl, rfl, by decide⟩

/-- C7 amended: every output line of the aggregation pipeline carries the
4-space-padded count and status-word prefix exactly when metadata was
requested (the cap is not -1) — including records whose metadata was
unavailable, which print count 0 and status "unknown"; when metadata was not
requested the line is the bare directory path. -/
theorem c7_output_format_amended (g : GoPath → GitRepoState) (max : Int)
    (dirs : List GoPath) (l : List templateData)
    (h : aggregateDirs g max dirs = Except.ok l) :
    ∀ d ∈ applyFilters l max,
      renderLine d =
        (if max = -1 then d.Dir.render ++ "\n"
         else pad4Int d.CommitCount ++ " " ++ d.RepoStatus ++ " " ++
           d.Dir.render ++ "\n") := by
  intro d hd
  have hmem := applyFilters_sub l max d hd
  have hflag := aggregateDirs_countFlag g max dirs l h d hmem
  by_cases hm : max = -1
  · have hfalse : (max != -1) = false := by
      subst hm
      simp
    rw [if_pos hm, renderLine, hflag, hfalse]
    rw [if_neg Bool.false_ne_true, string_empty_append]
  · have htrue : (max != -1) = true := bne_iff_ne.mpr hm
    rw [if_neg hm, renderLine, hflag, htrue, if_pos rfl]

theorem c7_output_format_amended_witness :
    aggregateDirs gClean3 5 [GoPath.abs ["r1"]] =
      Except.ok [⟨GoPath.abs ["r1"], true, 3, "clean"⟩] ∧
    ∀ d ∈ applyFilters [(⟨GoPath.abs ["r1"], true, 3, "clean"⟩ : templateData)] 5,
      renderLine d =
        (if (5 : Int) = -1 then d.Dir.render ++ "\n"
         else pad4Int d.CommitCount ++ " " ++ d.RepoStatus ++ " " ++
           d.Dir.render ++ "\n") :=
  ⟨rfl, c7_output_format_amended gClean3 5 [GoPath.abs ["r1"]]
    [⟨GoPath.abs ["r1"], true, 3, "clean"⟩] rfl⟩

/-- C3: the upward walk diverges on the filesystem `fs3` with working
directory `/home`: the second input `foo` is a relative directory at a
non-zero index, so the walk starts at `Dir "foo" = "."` and then steps
`Dir "." = "."` forever, never reaching `/`; no amount of fuel completes the
resolution.  The claim (and spec §8) say the walk always terminates at the
root with no entry. -/
theorem c3_walk_divergence :
    ∀ fuel : Nat,
      findSentinelDirs fs3 ["home"] fuel
        [GoPath.abs ["a"], GoPath.rel ["foo"]] ".git" = none := by
  have hrel : ∀ (n : Nat) (st : ResolveState), GoPath.rel [] ∉ st.uniqueDirs →
      walkLoop fs3 ["home"] ".git" n st (GoPath.rel []) = none := by
    intro n
    induction n with
    | zero => intro st _; rfl
    | succ n ih =>
      intro st hmem
      have hcond : ¬(GoPath.rel [] = GoPath.abs [] ∨ GoPath.rel [] ∈ st.uniqueDirs) := by
        rintro (h | h)
        · exact GoPath.noConfusion h
        · exact hmem h
      rw [walkLoop_step fs3 ["home"] ".git" n st (GoPath.rel []) hcond (by decide)]
      rw [show GoPath.dir (GoPath.rel []) = GoPath.rel [] from rfl]
      rw [ih st hmem]
  intro fuel
  rcases fuel with _ | fuel
  · rfl
  rcases fuel with _ | fuel
  · rfl
  have hwalk1 : walkLoop fs3 ["home"] ".git" (fuel + 1 + 1) ⟨[], []⟩ (GoPath.abs ["a"]) =
      some (⟨[], []⟩, [GoPath.abs ["a"]]) := by
    rw [walkLoop_step fs3 ["home"] ".git" (fuel + 1) ⟨[], []⟩ (GoPath.abs ["a"])
      (by decide) (by decide)]
    rw [show GoPath.dir (GoPath.abs ["a"]) = GoPath.abs [] from rfl]
    rw [walkLoop_stop fs3 ["home"] ".git" fuel ⟨[], []⟩ (GoPath.abs []) (Or.inl rfl)]
  have haux2 : findSentinelDirsAux fs3 ["home"] ".git" (fuel + 1 + 1) 1 ⟨[], []⟩
      [GoPath.rel ["foo"]] = none := by
    rw [findSentinelDirsAux_cons fs3 ["home"] ".git" (fuel + 1 + 1) 1 ⟨[], []⟩
      (GoPath.rel ["foo"]) [] true (by decide)]
    rw [if_pos (by decide : true = true ∧ (1 : Nat) ≠ 0)]
    rw [show GoPath.dir (GoPath.rel ["foo"]) = GoPath.rel [] from rfl]
    rw [hrel (fuel + 1 + 1) ⟨[], []⟩ (by decide)]
  show findSentinelDirsAux fs3 ["home"] ".git" (fuel + 1 + 1) 0 ⟨[], []⟩
    [GoPath.abs ["a"], GoPath.rel ["foo"]] = none
  rw [findSentinelDirsAux_cons fs3 ["home"] ".git" (fuel + 1 + 1) 0 ⟨[], []⟩
    (GoPath.abs ["a"]) [GoPath.rel ["foo"]] false (by decide)]
  rw [if_neg (by decide : ¬(false = true ∧ (0 : Nat) ≠ 0))]
  rw [show GoPath.abs (GoPath.absOf ["home"] (GoPath.abs ["a"])) = GoPath.abs ["a"] from rfl]
  rw [hwalk1]
  show (match findSentinelDirsAux fs3 ["home"] ".git" (fuel + 1 + 1) 1 ⟨[], []⟩
      [GoPath.rel ["foo"]] with
    | none => none
    | some (r, ps2) => some (r, [GoPath.abs ["a"]] ++ ps2)) = none
  rw [haux2]

lemma walkLoop_sound (fs : FS) (cwd : List String) (s : String) (st : ResolveState) :
    ∀ (n : Nat) (d : GoPath) (st2 : ResolveState) (ps : List GoPath),
      walkLoop fs cwd s n st d = some (st2, ps) →
      (st2 = st ∨ ∃ d2, ¬(d2 = GoPath.abs [] ∨ d2 ∈ st.uniqueDirs) ∧
        st2 = ⟨d2 :: st.uniqueDirs, st.result ++ [d2]⟩) ∧
      ∀ x ∈ ps, ¬(x = GoPath.abs [] ∨ x ∈ st.uniqueDirs) := by
  intro n
  induction n with
  | zero => intro d st2 ps h; exact absurd h (by simp [walkLoop])
  | succ n ih =>
    intro d st2 ps h
    by_cases h1 : d = GoPath.abs [] ∨ d ∈ st.uniqueDirs
    · rw [walkLoop_stop fs cwd s n st d h1] at h
      simp only [Option.some.injEq, Prod.mk.injEq] at h
      obtain ⟨rfl, rfl⟩ := h
      exact ⟨Or.inl rfl, by simp⟩
    · by_cases h2 : (FS.stat fs cwd (GoPath.join d s)).isSome = true
      · rw [walkLoop_found fs cwd s n st d h1 h2] at h
        simp only [Option.some.injEq, Prod.mk.injEq] at h
        obtain ⟨rfl, rfl⟩ := h
        refine ⟨Or.inr ⟨d, h1, rfl⟩, ?_⟩
        intro x hx
        rw [List.mem_singleton] at hx
        subst hx
        exact h1
      · have h2n : FS.stat fs cwd (GoPath.join d s) = none := by
          cases hs : FS.stat fs cwd (GoPath.join d s) with
          | none => rfl
          | some b => rw [hs] at h2; simp at h2
        rw [walkLoop_step fs cwd s n st d h1 h2n] at h
        cases hrec : walkLoop fs cwd s n st (GoPath.dir d) with
        | none => rw [hrec] at h; exact absurd h (by simp)
        | some pr =>
          obtain ⟨st3, ps3⟩ := pr
          rw [hrec] at h
          simp only [Option.some.injEq, Prod.mk.injEq] at h
          obtain ⟨rfl, rfl⟩ := h
          obtain ⟨hst, hpr⟩ := ih (GoPath.dir d) st3 ps3 hrec
          refine ⟨hst, ?_⟩
          intro x hx
          rcases List.mem_cons.mp hx with rfl | hx2
          · exact h1
          · exact hpr x hx2

lemma findSentinelDirsAux_sound (fs : FS) (cwd : List String) (s : String) (fuel : Nat) :
    ∀ (paths : List GoPath) (iter : Nat) (st : ResolveState)
      (r : Except String (List GoPath)) (ps : List GoPath),
      findSentinelDirsAux fs cwd s fuel iter st paths = some (r, ps) →
      st.result.Nodup → (∀ x ∈ st.result, x ∈ st.uniqueDirs) →
      GoPath.abs [] ∉ st.result →
      (∀ res, r = Except.ok res → res.Nodup ∧ GoPath.abs [] ∉ res) ∧
      GoPath.abs [] ∉ ps := by
  intro paths
  induction paths with
  | nil =>
    intro iter st r ps h h1 h2 h3
    rw [findSentinelDirsAux_nil] at h
    simp only [Option.some.injEq, Prod.mk.injEq] at h
    obtain ⟨rfl, rfl⟩ := h
    refine ⟨?_, by simp⟩
    intro res hres
    injection hres with h4
    subst h4
    exact ⟨h1, h3⟩
  | cons p rest ih =>
    intro iter st r ps h h1 h2 h3
    cases hstat : FS.stat fs cwd p with
    | none =>
      rw [findSentinelDirsAux_statErr fs cwd s fuel iter st p rest hstat] at h
      simp only [Option.some.injEq, Prod.mk.injEq] at h
      obtain ⟨rfl, rfl⟩ := h
      refine ⟨?_, by simp⟩
      intro res hres
      exact absurd hres (by simp)
    | some isDir =>
      rw [findSentinelDirsAux_cons fs cwd s fuel iter st p rest isDir hstat] at h
      cases hwalk : walkLoop fs cwd s fuel st
          (if isDir = true ∧ iter ≠ 0 then GoPath.dir p
           else GoPath.abs (GoPath.absOf cwd p)) with
      | none => rw [hwalk] at h; exact absurd h (by simp)
      | some pr =>
        obtain ⟨st2, ps1⟩ := pr
        rw [hwalk] at h
        dsimp only at h
        cases haux : findSentinelDirsAux fs cwd s fuel (iter + 1) st2 rest with
        | none => rw [haux] at h; exact absurd h (by simp)
        | some pr2 =>
          obtain ⟨r2, ps2⟩ := pr2
          rw [haux] at h
          simp only [Option.some.injEq, Prod.mk.injEq] at h
          obtain ⟨rfl, rfl⟩ := h
          obtain ⟨hstate, hprobe⟩ := walkLoop_sound fs cwd s st fuel _ st2 ps1 hwalk
          have hinv : st2.result.Nodup ∧ (∀ x ∈ st2.result, x ∈ st2.uniqueDirs) ∧
              GoPath.abs [] ∉ st2.result := by
            rcases hstate with rfl | ⟨d2, hd2, rfl⟩
            · exact ⟨h1, h2, h3⟩
            · have hd2a : ¬(d2 = GoPath.abs []) := fun hx => hd2 (Or.inl hx)
              have hd2b : d2 ∉ st.uniqueDirs := fun hx => hd2 (Or.inr hx)
              refine ⟨?_, ?_, ?_⟩
              · rw [List.nodup_append]
                refine ⟨h1, List.nodup_singleton d2, ?_⟩
                intro a ha hb
                rw [List.mem_singleton] at hb
                subst hb
                exact hd2b (h2 a ha)
              · intro x hx
                rcases List.mem_append.mp hx with hx1 | hx2
                · exact List.mem_cons_of_mem _ (h2 x hx1)
                · rw [List.mem_singleton] at hx2
                  subst hx2
                  exact List.mem_cons_self _ _
              · intro hx
                rcases List.mem_append.mp hx with hx1 | hx2
                · exact h3 hx1
                · rw [List.mem_singleton] at hx2
                  exact hd2a hx2.symm
          obtain ⟨ih1, ih2⟩ := ih (iter + 1) st2 r2 ps2 haux hinv.1 hinv.2.1 hinv.2.2
          refine ⟨ih1, ?_⟩
          intro hx
          rcases List.mem_append.mp hx with hx1 | hx2
          · exact (hprobe _ hx1) (Or.inl rfl)
          · exact ih2 hx2

/-- C2: a successful resolution returns a duplicate-free list: every resolved
directory appears exactly once across the whole batch, enforced by the
seen-set. -/
theorem c2_dedup (fs : FS) (cwd : List String) (fuel : Nat) (paths : List GoPath)
    (sentinel : String) (r : Except String (List GoPath)) (ps res : List GoPath)
    (h : findSentinelDirs fs cwd fuel paths sentinel = some (r, ps))
    (hok : r = Except.ok res) :
    res.Nodup ∧ ∀ d ∈ res, res.count d = 1 := by
  have hs := findSentinelDirsAux_sound fs cwd sentinel fuel paths 0 ⟨[], []⟩ r ps h
    (by simp) (by simp) (by simp)
  obtain ⟨hnd, _⟩ := hs.1 res hok
  exact ⟨hnd, fun d hd => List.count_eq_one_of_mem hnd hd⟩

theorem c2_dedup_witness :
    findSentinelDirs fsA [] 10
      [GoPath.abs ["r1", "a", "x.go"], GoPath.abs ["r1", "b", "y.go"]] ".git" =
      some (Except.ok [GoPath.abs ["r1"]],
        [GoPath.abs ["r1", "a", "x.go"], GoPath.abs ["r1", "a"], GoPath.abs ["r1"],
         GoPath.abs ["r1", "b", "y.go"], GoPath.abs ["r1", "b"]]) ∧
    ([GoPath.abs ["r1"]].Nodup ∧
      ∀ d ∈ [GoPath.abs ["r1"]], List.count d [GoPath.abs ["r1"]] = 1) :=
  ⟨rfl,
    c2_dedup fsA [] 10
      [GoPath.abs ["r1", "a", "x.go"], GoPath.abs ["r1", "b", "y.go"]] ".git"
      (Except.ok [GoPath.abs ["r1"]])
      [GoPath.abs ["r1", "a", "x.go"], GoPath.abs ["r1", "a"], GoPath.abs ["r1"],
       GoPath.abs ["r1", "b", "y.go"], GoPath.abs ["r1", "b"]]
      [GoPath.abs ["r1"]] rfl rfl⟩

/-- C10: the filesystem root `/` is never among the directories whose sentinel
entry is statted (the loop condition excludes it), and never among the
resolved directories, for every filesystem — including one where `/.git`
exists. -/
theorem c10_root_never_probed (fs : FS) (cwd : List String) (fuel : Nat)
    (paths : List GoPath) (sentinel : String) (r : Except String (List GoPath))
    (ps : List GoPath)
    (h : findSentinelDirs fs cwd fuel paths sentinel = some (r, ps)) :
    GoPath.abs [] ∉ ps ∧ ∀ res, r = Except.ok res → GoPath.abs [] ∉ res := by
  have hs := findSentinelDirsAux_sound fs cwd sentinel fuel paths 0 ⟨[], []⟩ r ps h
    (by simp) (by simp) (by simp)
  exact ⟨hs.2, fun res hres => (hs.1 res hres).2⟩

theorem c10_root_never_probed_witness :
    FS.stat fs10 [] (GoPath.join (GoPath.abs []) ".git") = some true ∧
    findSentinelDirs fs10 [] 10 [GoPath.abs ["a", "x.go"]] ".git" =
      some (Except.ok [], [GoPath.abs ["a", "x.go"], GoPath.abs ["a"]]) ∧
    GoPath.abs [] ∉ [GoPath.abs ["a", "x.go"], GoPath.abs ["a"]] :=
  ⟨by decide, rfl,
    (c10_root_never_probed fs10 [] 10 [GoPath.abs ["a", "x.go"]] ".git"
      (Except.ok []) [GoPath.abs ["a", "x.go"], GoPath.abs ["a"]] rfl).1⟩

/-! Order properties of the path comparison used by `sort.Strings`. -/

lemma listLeString_cons (a b : String) (as2 bs2 : List String) :
    listLeString (a :: as2) (b :: bs2) =
      if a = b then listLeString as2 bs2 else decide (a ≤ b) := rfl

lemma listLeString_total : ∀ as bs : List String,
    listLeString as bs = true ∨ listLeString bs as = true := by
  intro as
  induction as with
  | nil => intro bs; exact Or.inl rfl
  | cons a as2 ih =>
    intro bs
    cases bs with
    | nil => exact Or.inr rfl
    | cons b bs2 =>
      by_cases hab : a = b
      · subst hab
        rcases ih bs2 with h | h
        · left
          rw [listLeString_cons, if_pos rfl]
          exact h
        · right
          rw [listLeString_cons, if_pos rfl]
          exact h
      · have hba : ¬(b = a) := fun hx => hab hx.symm
        rcases le_total a b with h | h
        · left
          rw [listLeString_cons, if_neg hab]
          exact decide_eq_true h
        · right
          rw [listLeString_cons, if_neg hba]
          exact decide_eq_true h

lemma listLeString_trans : ∀ as bs cs : List String,
    listLeString as bs = true → listLeString bs cs = true →
    listLeString as cs = true := by
  intro as
  induction as with
  | nil => intro bs cs _ _; rfl
  | cons a as2 ih =>
    intro bs cs h1 h2
    cases bs with
    | nil => exact absurd h1 (by simp [listLeString])
    | cons b bs2 =>
      cases cs with
      | nil => exact absurd h2 (by simp [listLeString])
      | cons c cs2 =>
        by_cases hab : a = b <;> by_cases hbc : b = c
        · subst hab
          subst hbc
          rw [listLeString_cons, if_pos rfl] at h1 h2 ⊢
          exact ih _ _ h1 h2
        · subst hab
          rw [listLeString_cons, if_neg hbc] at h2 ⊢
          exact h2
        · subst hbc
          rw [listLeString_cons, if_neg hab] at h1 ⊢
          exact h1
        · rw [listLeString_cons, if_neg hab] at h1
          rw [listLeString_cons, if_neg hbc] at h2
          have hac : a < c :=
            lt_trans (lt_of_le_of_ne (of_decide_eq_true h1) hab)
              (lt_of_le_of_ne (of_decide_eq_true h2) hbc)
          rw [listLeString_cons, if_neg (ne_of_lt hac)]
          exact decide_eq_true (le_of_lt hac)

lemma listLeString_antisymm : ∀ as bs : List String,
    listLeString as bs = true → listLeString bs as = true → as = bs := by
  intro as
  induction as with
  | nil =>
    intro bs _ h2
    cases bs with
    | nil => rfl
    | cons b bs2 => exact absurd h2 (by simp [listLeString])
  | cons a as2 ih =>
    intro bs h1 h2
    cases bs with
    | nil => exact absurd h1 (by simp [listLeString])
    | cons b bs2 =>
      by_cases hab : a = b
      · subst hab
        rw [listLeString_cons, if_pos rfl] at h1 h2
        rw [ih bs2 h1 h2]
      · have hba : ¬(b = a) := fun hx => hab hx.symm
        rw [listLeString_cons, if_neg hab] at h1
        rw [listLeString_cons, if_neg hba] at h2
        exact absurd (le_antisymm (of_decide_eq_true h1) (of_decide_eq_true h2)) hab

instance : IsTotal GoPath pathRel := by
  constructor
  intro p q
  cases p with
  | abs as =>
    cases q with
    | abs bs =>
      rcases listLeString_total as bs with h | h
      · exact Or.inl h
      · exact Or.inr h
    | rel bs => exact Or.inr rfl
  | rel as =>
    cases q with
    | abs bs => exact Or.inl rfl
    | rel bs =>
      rcases listLeString_total as bs with h | h
      · exact Or.inl h
      · exact Or.inr h

instance : IsTrans GoPath pathRel := by
  constructor
  intro p q r h1 h2
  cases p with
  | abs as =>
    cases q with
    | abs bs =>
      cases r with
      | abs cs => exact listLeString_trans as bs cs h1 h2
      | rel cs => exact Bool.noConfusion h2
    | rel bs => exact Bool.noConfusion h1
  | rel as =>
    cases q with
    | abs bs =>
      cases r with
      | abs cs => rfl
      | rel cs => exact Bool.noConfusion h2
    | rel bs =>
      cases r with
      | abs cs => rfl
      | rel cs => exact listLeString_trans as bs cs h1 h2

instance : IsAntisymm GoPath pathRel := by
  constructor
  intro p q h1 h2
  cases p with
  | abs as =>
    cases q with
    | abs bs => rw [listLeString_antisymm as bs h1 h2]
    | rel bs => exact Bool.noConfusion h1
  | rel as =>
    cases q with
    | abs bs => exact Bool.noConfusion h2
    | rel bs => rw [listLeString_antisymm as bs h1 h2]

/-- C9: the final output of `run` is invariant under permutation of the stdin
lines: `sort.Strings` canonicalizes the input order before the resolver runs,
so resolution, aggregation and output depend only on the sorted list. -/
theorem c9_perm_invariance (fs : FS) (cwd : List String) (g : GoPath → GitRepoState)
    (fuel : Nat) (sentinel : String) (max : Int) (l1 l2 : List GoPath)
    (h : l1.Perm l2) :
    run fs cwd g fuel l1 sentinel max = run fs cwd g fuel l2 sentinel max := by
  have hs : sortPaths l1 = sortPaths l2 :=
    List.eq_of_perm_of_sorted
      ((List.perm_insertionSort pathRel l1).trans
        (h.trans (List.perm_insertionSort pathRel l2).symm))
      (List.sorted_insertionSort pathRel l1)
      (List.sorted_insertionSort pathRel l2)
  simp only [run, sortPaths] at hs ⊢
  rw [hs]

theorem c9_perm_invariance_witness :
    ([GoPath.abs ["r1", "b", "y.go"], GoPath.abs ["r1", "a", "x.go"]].Perm
      [GoPath.abs ["r1", "a", "x.go"], GoPath.abs ["r1", "b", "y.go"]]) ∧
    run fsA [] gClean3 10
        [GoPath.abs ["r1", "b", "y.go"], GoPath.abs ["r1", "a", "x.go"]] ".git" (-1) =
      run fsA [] gClean3 10
        [GoPath.abs ["r1", "a", "x.go"], GoPath.abs ["r1", "b", "y.go"]] ".git" (-1) :=
  ⟨List.Perm.swap (GoPath.abs ["r1", "a", "x.go"]) (GoPath.abs ["r1", "b", "y.go"]) [],
    c9_perm_invariance fsA [] gClean3 10 ".git" (-1)
      [GoPath.abs ["r1", "b", "y.go"], GoPath.abs ["r1", "a", "x.go"]]
      [GoPath.abs ["r1", "a", "x.go"], GoPath.abs ["r1", "b", "y.go"]]
      (List.Perm.swap (GoPath.abs ["r1", "a", "x.go"]) (GoPath.abs ["r1", "b", "y.go"]) [])⟩

lemma mem_statusFold : ∀ (l init : List (String × FileStatus)) (x : String × FileStatus),
    (x ∈ l.foldl
      (fun acc e =>
        if e.2.worktree = StatusCode.untracked then acc.filter (fun y => y.1 != e.1)
        else acc) init) ↔
    (x ∈ init ∧ ∀ e ∈ l, e.2.worktree = StatusCode.untracked → x.1 ≠ e.1) := by
  intro l
  induction l with
  | nil => intro init x; simp
  | cons e l2 ih =>
    intro init x
    rw [List.foldl_cons, ih]
    by_cases he : e.2.worktree = StatusCode.untracked
    · rw [if_pos he]
      simp only [List.mem_filter, bne_iff_ne, ne_eq]
      constructor
      · rintro ⟨⟨hx, hne⟩, hrest⟩
        refine ⟨hx, ?_⟩
        intro f hf hfu
        rcases List.mem_cons.mp hf with rfl | hf2
        · exact hne
        · exact hrest f hf2 hfu
      · rintro ⟨hx, hall⟩
        exact ⟨⟨hx, hall e (List.mem_cons_self _ _) he⟩,
          fun f hf hfu => hall f (List.mem_cons_of_mem _ hf) hfu⟩
    · rw [if_neg he]
      constructor
      · rintro ⟨hx, hrest⟩
        refine ⟨hx, ?_⟩
        intro f hf hfu
        rcases List.mem_cons.mp hf with rfl | hf2
        · exact absurd hfu he
        · exact hrest f hf2 hfu
      · rintro ⟨hx, hall⟩
        exact ⟨hx, fun f hf hfu => hall f (List.mem_cons_of_mem _ hf) hfu⟩

lemma nodup_keys_entry_inj :
    ∀ (l : List (String × FileStatus)), (l.map Prod.fst).Nodup →
      ∀ x ∈ l, ∀ e ∈ l, x.1 = e.1 → x = e := by
  intro l
  induction l with
  | nil => intro _ x hx; exact absurd hx (by simp)
  | cons a l2 ih =>
    intro h x hx e he hxe
    rw [List.map_cons, List.nodup_cons] at h
    obtain ⟨ha, hl⟩ := h
    rcases List.mem_cons.mp hx with rfl | hx2
    · rcases List.mem_cons.mp he with rfl | he2
      · rfl
      · exact absurd (by rw [hxe]; exact List.mem_map_of_mem Prod.fst he2) ha
    · rcases List.mem_cons.mp he with rfl | he2
      · exact absurd (by rw [← hxe]; exact List.mem_map_of_mem Prod.fst hx2) ha
      · exact ih hl x hx2 e he2 hxe

lemma isRepoClean_iff (status : List (String × FileStatus))
    (h : (status.map Prod.fst).Nodup) :
    isRepoClean status = true ↔
      status.filter (fun e => e.2.worktree != StatusCode.untracked) = [] := by
  simp only [isRepoClean]
  rw [beq_iff_eq, List.length_eq_zero]
  constructor
  · intro hfold
    rw [List.eq_nil_iff_forall_not_mem] at hfold ⊢
    intro x hxf
    rw [List.mem_filter] at hxf
    obtain ⟨hxs, hxw⟩ := hxf
    have hxw2 : x.2.worktree ≠ StatusCode.untracked := by
      simpa [bne_iff_ne] using hxw
    apply hfold x
    rw [mem_statusFold]
    refine ⟨hxs, ?_⟩
    intro e hes heu hxe1
    have hx : x = e := nodup_keys_entry_inj status h x hxs e hes hxe1
    rw [hx] at hxw2
    exact hxw2 heu
  · intro hfilter
    rw [List.eq_nil_iff_forall_not_mem] at hfilter ⊢
    intro x hxm
    rw [mem_statusFold] at hxm
    obtain ⟨hxs, hcond⟩ := hxm
    by_cases hxu : x.2.worktree = StatusCode.untracked
    · exact hcond x hxs hxu rfl
    · apply hfilter x
      rw [List.mem_filter]
      exact ⟨hxs, by simpa [bne_iff_ne] using hxu⟩

/-- C8: when the repository opens and its worktree and status calls succeed and
the status map has (Go-map) unique keys, getRepoStatus reports "clean" iff the
status map with all untracked-worktree entries discarded is empty, and "dirty"
otherwise. -/
theorem c8_clean_iff (g : GoPath → GitRepoState) (p : GoPath)
    (h1 : (g p).openOk = true) (h2 : (g p).worktreeOk = true)
    (h3 : (g p).statusOk = true)
    (h4 : (((g p).status).map Prod.fst).Nodup) :
    (getRepoStatus g p = Except.ok "clean" ↔
      (g p).status.filter (fun e => e.2.worktree != StatusCode.untracked) = []) ∧
    (getRepoStatus g p = Except.ok "dirty" ↔
      ¬((g p).status.filter (fun e => e.2.worktree != StatusCode.untracked) = [])) := by
  have hiff := isRepoClean_iff (g p).status h4
  have hval : getRepoStatus g p =
      (if isRepoClean (g p).status then Except.ok "clean" else Except.ok "dirty") := by
    simp [getRepoStatus, h1, h2, h3]
  by_cases hc : isRepoClean (g p).status
  · rw [hval, if_pos hc]
    constructor
    · constructor
      · intro _
        exact hiff.mp hc
      · intro _
        rfl
    · constructor
      · intro hx
        injection hx with hx2
        exact absurd hx2 (by decide)
      · intro hnx
        exact absurd (hiff.mp hc) hnx
  · rw [hval, if_neg hc]
    have hnc : ¬((g p).status.filter (fun e => e.2.worktree != StatusCode.untracked) = []) :=
      fun hx => hc (hiff.mpr hx)
    constructor
    · constructor
      · intro hx
        injection hx with hx2
        exact absurd hx2.symm (by decide)
      · intro hfx
        exact absurd hfx hnc
    · constructor
      · intro _
        exact hnc
      · intro _
        rfl

/-- A repository whose status map holds one untracked file and one modified
tracked file: dirty, and untracked alone would not make it dirty. -/
def gDirty : GoPath → GitRepoState := fun _ =>
  { openOk := true, logOk := true, iterOk := true, commits := 1,
    worktreeOk := true, statusOk := true,
    status := [("a.txt", ⟨StatusCode.untracked, StatusCode.untracked⟩),
               ("b.txt", ⟨StatusCode.unmodified, StatusCode.modified⟩)] }

theorem c8_clean_iff_witness :
    (gDirty (GoPath.abs ["r"])).openOk = true ∧
    (gDirty (GoPath.abs ["r"])).worktreeOk = true ∧
    (gDirty (GoPath.abs ["r"])).statusOk = true ∧
    (((gDirty (GoPath.abs ["r"])).status).map Prod.fst).Nodup ∧
    ((getRepoStatus gDirty (GoPath.abs ["r"]) = Except.ok "clean" ↔
       (gDirty (GoPath.abs ["r"])).status.filter
         (fun e => e.2.worktree != StatusCode.untracked) = []) ∧
     (getRepoStatus gDirty (GoPath.abs ["r"]) = Except.ok "dirty" ↔
       ¬((gDirty (GoPath.abs ["r"])).status.filter
         (fun e => e.2.worktree != StatusCode.untracked) = []))) :=
  ⟨rfl, rfl, rfl, by decide,
    c8_clean_iff gDirty (GoPath.abs ["r"]) rfl rfl rfl (by decide)⟩
